import Mathlib

/-!
# GraphQnA — verification of spec claims against the source

Shallow embedding of the parts of the GraphQnA code base that the claims
C1–C10 talk about.  Python strings are modelled as `List Char`, Python
floats as `ℚ`, fallible Python code as `Except`.  Each definition is
translated from the named source function.
-/

namespace GraphQnA

/-! ## Python string primitives -/

/-- Python `str.isspace` on the six ASCII whitespace characters
(space, tab, newline, carriage return, vertical tab, form feed).
Non-ASCII whitespace is not modelled; no claim exercises it. -/
def pyIsSpace (c : Char) : Bool :=
  c = ' ' || c = '\t' || c = '\n' || c = '\r' || c = '\x0b' || c = '\x0c'

/-- Python `str.strip()` (no argument): drop whitespace from both ends. -/
def pyStrip (l : List Char) : List Char :=
  ((l.dropWhile pyIsSpace).reverse.dropWhile pyIsSpace).reverse

/-- Python `str.lower()` (ASCII range, via `Char.toLower`). -/
def lowerStr (l : List Char) : List Char := l.map Char.toLower

/-- Python `str.upper()` (ASCII range, via `Char.toUpper`). -/
def upperStr (l : List Char) : List Char := l.map Char.toUpper

/-- Python `pat in s` (substring containment). -/
def containsSub (pat : List Char) : List Char → Bool
  | [] => pat.isEmpty
  | c :: rest => pat.isPrefixOf (c :: rest) || containsSub pat rest

/-! ## C2 — `BaseRetriever.embed_query` dimension normalization
(`src/graphqna/retrieval/base.py`, lines 59–73).  The raw embedding
returned by the underlying embedder is the input list; the configured
dimensionality is `expectedDimensions`. -/

/-- Embedding of the truncate-or-pad logic of `BaseRetriever.embed_query`:
`embedding[:expected]` when too long, `embedding.extend([0.0] * (expected - k))`
when too short, unchanged otherwise. -/
def normalizeEmbedding (expectedDimensions : ℕ) (embedding : List ℚ) : List ℚ :=
  if embedding.length > expectedDimensions then
    embedding.take expectedDimensions
  else if embedding.length < expectedDimensions then
    embedding ++ List.replicate (expectedDimensions - embedding.length) 0
  else
    embedding

/-! ## C7 — `EnhancedKGRetriever._clean_and_validate_cypher`
(`src/graphqna/retrieval/enhanced_kg.py`, lines 204–228). -/

/-- The `valid_starts` list of the source. -/
def validCypherStarts : List (List Char) :=
  ["MATCH".toList, "RETURN".toList, "WITH".toList, "CALL".toList,
   "CREATE".toList, "MERGE".toList, "OPTIONAL".toList]

/-- The guard of the stray-`r` removal in `_clean_and_validate_cypher`:
`cypher.startswith('r') and len(cypher) > 1 and not cypher.lower().startswith('return')`. -/
def cypherStripCond (cypher : List Char) : Bool :=
  (cypher.head? == some 'r') && decide (1 < cypher.length)
    && !("return".toList.isPrefixOf (lowerStr cypher))

/-- The final `valid_starts` check of `_clean_and_validate_cypher`:
`any(cypher.upper().startswith(start) for start in valid_starts)`, rejecting
to `UNKNOWN` on failure. -/
def cypherGate (cypher : List Char) : List Char :=
  if validCypherStarts.any (fun s => s.isPrefixOf (upperStr cypher)) then
    cypher
  else "UNKNOWN".toList

/-- Embedding of `_clean_and_validate_cypher`: the empty/`UNKNOWN` guard,
the stray leading `r` removal (`cypher = cypher[1:].strip()`), then the
`valid_starts` check. -/
def cleanAndValidateCypher (cypher : List Char) : List Char :=
  if cypher = [] ∨ cypher = "UNKNOWN".toList then "UNKNOWN".toList
  else
    cypherGate
      (if cypherStripCond cypher then pyStrip (cypher.drop 1) else cypher)

/-- The cleaning step exactly as claim C7 words it: one leading `r`
character is stripped and nothing else (no whitespace trimming after the
removal).  Used only to refute the claim as stated. -/
def cleanAndValidateCypherClaimed (cypher : List Char) : List Char :=
  if cypher = [] ∨ cypher = "UNKNOWN".toList then "UNKNOWN".toList
  else
    cypherGate (if cypherStripCond cypher then cypher.drop 1 else cypher)

/-- "Case-insensitively begins with the (uppercase) clause": the first
`clause.length` characters, uppercased, are the clause. -/
abbrev beginsWithClauseCI (clause c : List Char) : Prop :=
  upperStr (c.take clause.length) = clause

/-- "Case-insensitively begins with `return`": the first six characters,
lowercased, are `return`. -/
abbrev beginsWithReturnCI (c : List Char) : Prop :=
  lowerStr (c.take 6) = "return".toList

/-! ## `QueryResponse` (`src/graphqna/models/response.py`, lines 40–72)

A pydantic model; constructing one runs the two validators, so the
constructor is modelled as returning `Except` (a failed validation raises).
Only the fields the claims touch are modelled; `context` and `metadata`
entries are kept abstract as strings. -/

/-- The `valid_methods` list of `QueryResponse.validate_retrieval_method`. -/
def validRetrievalMethods : List (List Char) :=
  ["vector".toList, "graphrag".toList, "graph".toList, "kg".toList,
   "enhanced_kg".toList, "hybrid".toList]

/-- The replacement text of `QueryResponse.validate_answer` for an
empty/whitespace-only answer. -/
def defaultEmptyAnswer : List Char :=
  "I don\x27t have enough information to answer this question based on the available data.".toList

structure QueryResponse where
  query : List Char
  answer : List Char
  retrieval_method : List Char
  query_time : ℚ
  context : List (List Char)
  metadata : List (List Char × List Char)
deriving DecidableEq

/-- The tail of the pydantic validation error text of
`validate_retrieval_method`: `. Must be one of {valid_methods}`. -/
def pydanticMethodSuffix : List Char :=
  ". Must be one of [\x27vector\x27, \x27graphrag\x27, \x27graph\x27, \x27kg\x27, \x27enhanced_kg\x27, \x27hybrid\x27]".toList

/-- Constructing a `QueryResponse`: `validate_answer` substitutes the
default text for an empty or whitespace-only answer; `validate_retrieval_method`
raises (here: `.error`) when the method is not in `valid_methods`, with the
pydantic error text. -/
def mkQueryResponse (query answer retrieval_method : List Char)
    (query_time : ℚ) (context : List (List Char))
    (metadata : List (List Char × List Char)) :
    Except (List Char) QueryResponse :=
  let answer := if pyStrip answer = [] then defaultEmptyAnswer else answer
  if retrieval_method ∈ validRetrievalMethods then
    .ok ⟨query, answer, retrieval_method, query_time, context, metadata⟩
  else
    .error ("Invalid retrieval method: ".toList ++ retrieval_method
      ++ pydanticMethodSuffix)

/-! ## C3 and C4 — `HybridRetriever`
(`src/graphqna/retrieval/hybrid_retriever.py`).

The four retrievers in `self.retrievers` are external collaborators; their
behaviour on the one query of a run enters the model as `Except` outcomes
(`.error` = the Python call raised).  A knowledge-graph record is modelled
by the truthiness of its values (`List Bool`). -/

/-- Keys of the `self.retrievers` map of `HybridRetriever`. -/
inductive RetrieverKey
  | vector
  | graphrag
  | kg
  | enhanced_kg
deriving DecidableEq

/-- Embedding of `HybridRetriever._has_good_results`. -/
def hasGoodResults (results : List (List Bool)) (method : RetrieverKey) : Bool :=
  if results = [] then false
  else if method = .kg ∨ method = .enhanced_kg then
    results.any (fun r => r.any id)
  else decide (3 ≤ results.length)

/-- The fallback half of `HybridRetriever.retrieve` (the code after the
primary attempt): call the configured fallback retriever; if that raises,
fall back to `self.vector_retriever` unless the fallback already was
`"vector"`, in which case return `[]`.  The second component counts the
invocations of the configured fallback retriever. -/
def hybridRetrieveFallback (fallbackMethod : RetrieverKey)
    (fallbackRes vectorRes : Except (List Char) (List (List Bool))) :
    Except (List Char) (List (List Bool)) × ℕ :=
  match fallbackRes with
  | .ok rs => (.ok rs, 1)
  | .error _ =>
      if fallbackMethod ≠ .vector then (vectorRes, 1)
      else (.ok [], 1)

/-- Embedding of `HybridRetriever.retrieve` for a fixed retrieval plan
`(primaryMethod, fallbackMethod)`: use the primary result when
`_has_good_results` accepts it, otherwise (or when the primary raised) run
the fallback half. -/
def hybridRetrieve (primaryMethod fallbackMethod : RetrieverKey)
    (primaryRes fallbackRes vectorRes : Except (List Char) (List (List Bool))) :
    Except (List Char) (List (List Bool)) × ℕ :=
  match primaryRes with
  | .ok results =>
      if hasGoodResults results primaryMethod then (.ok results, 0)
      else hybridRetrieveFallback fallbackMethod fallbackRes vectorRes
  | .error _ => hybridRetrieveFallback fallbackMethod fallbackRes vectorRes

/-- The literal marker `"Not applicable:"` tested by
`HybridRetriever.answer_question`. -/
def notApplicableMarker : List Char := "Not applicable:".toList

/-- The generic-error answer text of `HybridRetriever.answer_question`. -/
def hybridErrorAnswer : List Char :=
  "I apologize, but I encountered an error while searching for information. Please try a different question or rephrase your query.".toList

/-- The `except` path of `HybridRetriever.answer_question`: try the fallback
retriever; if it raises too, build the generic error response (method tag
`"hybrid"`). -/
def hybridAnswerExcept (query : List Char)
    (fallback : Except (List Char) QueryResponse) (e : List Char)
    (elapsed : ℚ) : Except (List Char) QueryResponse :=
  match fallback with
  | .ok fresp => .ok fresp
  | .error e2 =>
      mkQueryResponse query hybridErrorAnswer "hybrid".toList elapsed []
        [("error".toList, e), ("fallback_error".toList, e2)]

/-- Embedding of `HybridRetriever.answer_question` for a fixed plan: if the
primary answer contains `"Not applicable:"`, ask the fallback and prefer its
response when its answer lacks the marker; otherwise keep the primary
response.  A raise anywhere in the `try` block goes to the `except` path. -/
def hybridAnswerQuestion (query : List Char)
    (primary fallback : Except (List Char) QueryResponse)
    (elapsed : ℚ) : Except (List Char) QueryResponse :=
  match primary with
  | .ok resp =>
      if containsSub notApplicableMarker resp.answer then
        match fallback with
        | .ok fresp =>
            if !(containsSub notApplicableMarker fresp.answer) then .ok fresp
            else .ok resp
        | .error e => hybridAnswerExcept query fallback e elapsed
      else .ok resp
  | .error e => hybridAnswerExcept query fallback e elapsed

/-! ## C5 and C6 — `RetrievalService`
(`src/graphqna/retrieval/service.py`).

Retriever instances are identified by allocation order (`ℕ`); the service
state holds the five lazily created slots.  The constructor arguments of the
concrete retrievers play no role in the claims and are not modelled. -/

/-- The `RetrievalMethod` enum of the source. -/
inductive RetrievalMethod
  | vector
  | graphrag
  | kg
  | enhanced_kg
  | hybrid
deriving DecidableEq

/-- `RetrievalMethod(value)` lookup by enum value. -/
def retrievalMethodOfValue (s : List Char) : Option RetrievalMethod :=
  if s = "vector".toList then some .vector
  else if s = "graphrag".toList then some .graphrag
  else if s = "kg".toList then some .kg
  else if s = "enhanced_kg".toList then some .enhanced_kg
  else if s = "hybrid".toList then some .hybrid
  else none

/-- The `Union[str, RetrievalMethod]` argument of `get_retriever` and
`answer_question`. -/
inductive MethodArg
  | str (s : List Char)
  | enum (m : RetrievalMethod)

/-- CPython `str(method)` on the argument: a plain string is itself; a
(str, Enum) member prints as `RetrievalMethod.<NAME>`. -/
def strOfMethodArg : MethodArg → List Char
  | .str s => s
  | .enum .vector => "RetrievalMethod.VECTOR".toList
  | .enum .graphrag => "RetrievalMethod.GRAPHRAG".toList
  | .enum .kg => "RetrievalMethod.KG".toList
  | .enum .enhanced_kg => "RetrievalMethod.ENHANCED_KG".toList
  | .enum .hybrid => "RetrievalMethod.HYBRID".toList

/-- The lazily initialized retriever slots of `RetrievalService`, plus the
next fresh instance id. -/
structure ServiceState where
  _vector_retriever : Option ℕ
  _graph_retriever : Option ℕ
  _kg_retriever : Option ℕ
  _enhanced_kg_retriever : Option ℕ
  _hybrid_retriever : Option ℕ
  nextId : ℕ
deriving DecidableEq

/-- The normalization step of `get_retriever`: a string is lowercased and
parsed as a `RetrievalMethod`, raising `ValueError` (naming the original
string) on failure; an enum passes through. -/
def normalizeMethod : MethodArg → Except (List Char) RetrievalMethod
  | .enum m => .ok m
  | .str s =>
      match retrievalMethodOfValue (lowerStr s) with
      | some m => .ok m
      | none => .error ("Invalid retrieval method: ".toList ++ s)

/-- The dispatch half of `get_retriever`: return the cached instance for the
method's slot, creating it first when the slot is `None`. -/
def getRetrieverByMethod (st : ServiceState) :
    RetrievalMethod → ℕ × ServiceState
  | .vector =>
      match st._vector_retriever with
      | some r => (r, st)
      | none => (st.nextId,
          { st with _vector_retriever := some st.nextId,
                    nextId := st.nextId + 1 })
  | .graphrag =>
      match st._graph_retriever with
      | some r => (r, st)
      | none => (st.nextId,
          { st with _graph_retriever := some st.nextId,
                    nextId := st.nextId + 1 })
  | .kg =>
      match st._kg_retriever with
      | some r => (r, st)
      | none => (st.nextId,
          { st with _kg_retriever := some st.nextId,
                    nextId := st.nextId + 1 })
  | .enhanced_kg =>
      match st._enhanced_kg_retriever with
      | some r => (r, st)
      | none => (st.nextId,
          { st with _enhanced_kg_retriever := some st.nextId,
                    nextId := st.nextId + 1 })
  | .hybrid =>
      match st._hybrid_retriever with
      | some r => (r, st)
      | none => (st.nextId,
          { st with _hybrid_retriever := some st.nextId,
                    nextId := st.nextId + 1 })

/-- Embedding of `RetrievalService.get_retriever`. -/
def getRetriever (st : ServiceState) (method : MethodArg) :
    Except (List Char) (ℕ × ServiceState) :=
  match normalizeMethod method with
  | .error e => .error e
  | .ok m => .ok (getRetrieverByMethod st m)

/-- Embedding of `RetrievalService.answer_question`.  The resolved
retriever's `answer_question` behaviour enters as `retrieverAnswer`
(indexed by instance id; `.error` = raised).  The `except` block builds an
error `QueryResponse` through the pydantic constructor — whose own
validation failure is *not* caught and propagates. -/
def serviceAnswerQuestion (st : ServiceState) (query : List Char)
    (method : MethodArg)
    (retrieverAnswer : ℕ → Except (List Char) QueryResponse)
    (elapsed : ℚ) : Except (List Char) QueryResponse :=
  let attempt : Except (List Char) QueryResponse :=
    match getRetriever st method with
    | .ok (r, _) => retrieverAnswer r
    | .error e => .error e
  match attempt with
  | .ok resp => .ok resp
  | .error e =>
      mkQueryResponse query ("Error: ".toList ++ e) (strOfMethodArg method)
        elapsed [] [("error".toList, e)]

/-! ## C8 and C10 — API rate limiting and key verification
(`src/graphqna/api/server.py`, lines 99–121 and 150–193).

Time is modelled as `ℚ` (seconds); `timedelta(minutes=1)` is `60`.  The
limiter's `self.requests` dict is a total map from IP to timestamp list
with default `[]` (`ip not in self.requests` behaves identically to an
empty list on every path of `is_rate_limited`). -/

abbrev RLState := List Char → List ℚ

/-- Pointwise dict update `self.requests[ip] = l`. -/
def updateRL (st : RLState) (ip : List Char) (l : List ℚ) : RLState :=
  fun ip' => if ip' = ip then l else st ip'

/-- Embedding of `RateLimiter.is_rate_limited`: drop entries not newer than
`now - 60`, reject (without recording the request) when at least
`limit` entries remain, otherwise record `now` and admit. -/
def isRateLimited (limit : ℕ) (st : RLState) (ip : List Char) (now : ℚ) :
    Bool × RLState :=
  let cleaned := (st ip).filter (fun ts => now - 60 < ts)
  if limit ≤ cleaned.length then (true, updateRL st ip cleaned)
  else (false, updateRL st ip (cleaned ++ [now]))

/-- Outcome of the `verify_api_key` dependency: the request proceeds (the
endpoint then answers 200) or an `HTTPException` with the given status is
raised. -/
inductive ApiOutcome
  | allowed
  | httpError (statusCode : ℕ)
deriving DecidableEq

/-- Embedding of `verify_api_key` (lines 156–193): rate limit first
(module-level limiter, 60 requests/minute), then the API-key checks.
`configuredKey = []` models a falsy `settings.api_key` (insecure mode);
`apiKey = []` models a missing/empty `x-api-key` header value, rejected
with 403.  The key comparison is on `lower()` of both sides. -/
def verifyApiKey (st : RLState) (ip : List Char) (now : ℚ)
    (apiKey : List Char) (configuredKey : List Char) : ApiOutcome × RLState :=
  let r := isRateLimited 60 st ip now
  if r.1 then (.httpError 429, r.2)
  else if configuredKey = [] then (.allowed, r.2)
  else if apiKey = [] then (.httpError 403, r.2)
  else if lowerStr apiKey ≠ lowerStr configuredKey then (.httpError 403, r.2)
  else (.allowed, r.2)

/-- A sequence of requests from one client IP against `verify_api_key`:
each request is a `(time, presented key)` pair; outcomes are collected in
order and the limiter state is threaded through. -/
def processVerify (configuredKey ip : List Char) :
    List (ℚ × List Char) → RLState → List ApiOutcome × RLState
  | [], st => ([], st)
  | (now, key) :: rest, st =>
      ((verifyApiKey st ip now key configuredKey).1
          :: (processVerify configuredKey ip rest
                (verifyApiKey st ip now key configuredKey).2).1,
       (processVerify configuredKey ip rest
          (verifyApiKey st ip now key configuredKey).2).2)

/-- The limiter state after a sequence of `is_rate_limited` calls for one
IP at the given times. -/
def runLimiter (ip : List Char) : List ℚ → RLState → RLState
  | [], st => st
  | t :: ts, st => runLimiter ip ts (isRateLimited 60 st ip t).2

/-! ## C1 — `DocumentChunker._create_chunks`
(`src/graphqna/ingest/chunker.py`).

`chunk_size`/`chunk_overlap` are `cs`/`co`.  Chunk segments are triples
`(chunk_text, start_char, end_char)` exactly as in the Python helpers. -/

/-- Python `text.count('\n\n')` (non-overlapping, left to right). -/
def countDoubleNewline : List Char → ℕ
  | '\n' :: '\n' :: rest => countDoubleNewline rest + 1
  | _ :: rest => countDoubleNewline rest
  | [] => 0

/-- The regex `#+\s+` anchored at the head of `l`: one or more `#` then a
whitespace character. -/
def matchesHashWs (l : List Char) : Bool :=
  let hs := l.takeWhile (fun c => c = '#')
  !hs.isEmpty &&
    (match l.drop hs.length with
     | c :: _ => pyIsSpace c
     | [] => false)

/-- `re.search(r'^#+\s+', text, re.MULTILINE)` restricted to positions
after a newline (the position at the very start is checked separately). -/
def hasHeadingAfterNewline : List Char → Bool
  | [] => false
  | '\n' :: rest => matchesHashWs rest || hasHeadingAfterNewline rest
  | _ :: rest => hasHeadingAfterNewline rest

/-- Embedding of `_has_semantic_structure`: a Markdown heading anywhere, or
more than two `'\n\n'` occurrences. -/
def hasSemanticStructure (text : List Char) : Bool :=
  (matchesHashWs text || hasHeadingAfterNewline text)
    || decide (2 < countDoubleNewline text)

/-- Python `text.split('\n')` (keeps empty pieces, including a trailing
one). -/
def splitLines : List Char → List (List Char)
  | [] => [[]]
  | '\n' :: rest => [] :: splitLines rest
  | c :: rest =>
      match splitLines rest with
      | [] => [[c]]
      | line :: more => (c :: line) :: more

/-- `re.match(r'^#{1,6}\s+.*$', line.strip())` of `_split_by_headings`:
one to six `#`, then a whitespace character, on the stripped line. -/
def isHeadingLine (line : List Char) : Bool :=
  let s := pyStrip line
  let hs := s.takeWhile (fun c => c = '#')
  decide (1 ≤ hs.length) && decide (hs.length ≤ 6) &&
    (match s.drop hs.length with
     | c :: _ => pyIsSpace c
     | [] => false)

/-- The `current_pos` walk of `_split_by_headings`: character offsets of
the heading lines (`+1` per line for the split-away newline). -/
def headingPositions : List (List Char) → ℕ → List ℕ
  | [], _ => []
  | line :: rest, pos =>
      (if isHeadingLine line then [pos] else [])
        ++ headingPositions rest (pos + line.length + 1)

/-- The section-building loop of `_split_by_headings`: each heading
position up to the next one (the last up to the end of the text). -/
def sectionsFrom : List ℕ → List Char → List (List Char × ℕ × ℕ)
  | [], _ => []
  | [p], text => [((text.drop p).take (text.length - p), p, text.length)]
  | p :: q :: rest, text =>
      ((text.drop p).take (q - p), p, q) :: sectionsFrom (q :: rest) text

/-- Embedding of `_split_by_headings`.  Note the source keeps only text
from the first heading onward: a prefix before the first heading belongs
to no section. -/
def splitByHeadings (text : List Char) : List (List Char × ℕ × ℕ) :=
  if headingPositions (splitLines text) 0 = [] then [(text, 0, text.length)]
  else sectionsFrom (headingPositions (splitLines text) 0) text

/-- `text.rfind('\n\n')` as an `Option`: index of the last (possibly
overlapping) occurrence, found by recording each start of `"\n\n"`. -/
def rfindDoubleNewlineAux : List Char → ℕ → Option ℕ → Option ℕ
  | [], _, best => best
  | c :: rest, i, best =>
      rfindDoubleNewlineAux rest (i + 1)
        (if c = '\n' ∧ rest.head? = some '\n' then some i else best)

def rfindDoubleNewline (l : List Char) : Option ℕ :=
  rfindDoubleNewlineAux l 0 none

/-- `text.rfind(c)` as an `Option`. -/
def rfindCharAux (c : Char) : List Char → ℕ → Option ℕ → Option ℕ
  | [], _, best => best
  | x :: rest, i, best =>
      rfindCharAux c rest (i + 1) (if x = c then some i else best)

def rfindChar (c : Char) (l : List Char) : Option ℕ :=
  rfindCharAux c l 0 none

/-- Inner loop of the `for i in range(hi, lo, -1)` scans: `cnt` indices
remain, the current one is `i`. -/
def scanDownAux (p : ℕ → Bool) : ℕ → ℕ → Option ℕ
  | 0, _ => none
  | cnt + 1, i => if p i then some i else scanDownAux p cnt (i - 1)

/-- The `for i in range(hi, lo, -1)` scans of `_find_split_point`: first
index from `hi` down to `lo + 1` satisfying `p`. -/
def scanDown (p : ℕ → Bool) (lo hi : ℕ) : Option ℕ :=
  scanDownAux p (hi - lo) hi

/-- `text[i] in '.!?' and (i + 1 >= len(text) or text[i + 1].isspace())`. -/
def sentenceEndAt (text : List Char) (i : ℕ) : Bool :=
  decide (i < text.length) &&
    (match text[i]? with
     | some c => c = '.' || c = '!' || c = '?'
     | none => false) &&
    (decide (text.length ≤ i + 1) ||
     (match text[i + 1]? with
      | some c => pyIsSpace c
      | none => false))

/-- `text[i].isspace()` guarded by `i < len(text)`. -/
def spaceAt (text : List Char) (i : ℕ) : Bool :=
  decide (i < text.length) &&
    (match text[i]? with
     | some c => pyIsSpace c
     | none => false)

/-- The sentence-end and word-boundary fallbacks of `_find_split_point`
(both scans run from `max_size - 1` down to `max_size // 2`, exclusive),
defaulting to `max_size`. -/
def findSplitPointRest (text : List Char) (maxSize : ℕ) : ℕ :=
  match scanDown (sentenceEndAt text) (maxSize / 2) (maxSize - 1) with
  | some i => i + 1
  | none =>
      match scanDown (spaceAt text) (maxSize / 2) (maxSize - 1) with
      | some i => i + 1
      | none => maxSize

/-- The line-break attempt of `_find_split_point`.  The source compares
`last_line > max_size * 0.7` in binary64; `0.7` is not exactly
representable, and the comparison is modelled by the exact rational
`10 * ll > 7 * maxSize`.  No theorem below exercises this branch. -/
def findSplitPointLine (text : List Char) (maxSize : ℕ) : ℕ :=
  match rfindChar '\n' (text.take maxSize) with
  | some ll =>
      if 10 * ll > 7 * maxSize then ll + 1
      else findSplitPointRest text maxSize
  | none => findSplitPointRest text maxSize

/-- Embedding of `_find_split_point`.  `last_paragraph > max_size * 0.5`
is exact in binary64 for any realistic size and is modelled by
`2 * lp > maxSize`. -/
def findSplitPoint (text : List Char) (maxSize : ℕ) : ℕ :=
  if text.length ≤ maxSize then text.length
  else
    match rfindDoubleNewline (text.take maxSize) with
    | some lp =>
        if 2 * lp > maxSize then lp + 2
        else findSplitPointLine text maxSize
    | none => findSplitPointLine text maxSize

/-- The `while len(current_chunk) > self.chunk_size` loop of
`_create_semantic_chunks`, bounded by fuel.  The Python loop is not
guaranteed to make progress (when `split_point ≤ chunk_overlap` it spins
forever); the fuel passed by `semanticFold` suffices for every execution
the theorems below touch. -/
def semanticWhile (cs co : ℕ) :
    ℕ → List (List Char × ℕ × ℕ) → List Char → ℕ →
    List (List Char × ℕ × ℕ) × List Char × ℕ
  | 0, chunks, current, curStart => (chunks, current, curStart)
  | fuel + 1, chunks, current, curStart =>
      if cs < current.length then
        let sp := findSplitPoint current cs
        semanticWhile cs co fuel
          (chunks ++ [(current.take sp, curStart, curStart + sp)])
          (current.drop (sp - co))
          (curStart + (sp - co))
      else (chunks, current, curStart)

/-- The `for section_text, ... in sections` loop of
`_create_semantic_chunks`: finish the current chunk when the section would
overflow it (keeping `chunk_overlap` characters), append the section, then
split oversized chunks. -/
def semanticFold (cs co : ℕ) :
    List (List Char × ℕ × ℕ) → List (List Char × ℕ × ℕ) → List Char → ℕ →
    List (List Char × ℕ × ℕ) × List Char × ℕ
  | [], chunks, current, curStart => (chunks, current, curStart)
  | (sectionText, _, _) :: rest, chunks, current, curStart =>
      let st1 :=
        if cs < current.length + sectionText.length ∧ current ≠ [] then
          (chunks ++ [(current, curStart, curStart + current.length)],
           current.drop (current.length - co),
           curStart + (current.length - co))
        else (chunks, current, curStart)
      let cur2 := st1.2.1 ++ sectionText
      let st2 := semanticWhile cs co (cur2.length + 1) st1.1 cur2 st1.2.2
      semanticFold cs co rest st2.1 st2.2.1 st2.2.2

/-- Embedding of `_create_semantic_chunks`. -/
def createSemanticChunks (cs co : ℕ) (text : List Char) :
    List (List Char × ℕ × ℕ) :=
  let r := semanticFold cs co (splitByHeadings text) [] [] 0
  if r.2.1 ≠ [] then r.1 ++ [(r.2.1, r.2.2, r.2.2 + r.2.1.length)]
  else r.1

/-- The `for i in range(0, content_length, chunk_size - chunk_overlap)`
loop of `_create_simple_chunks`; `end = min(i + chunk_size,
content_length)`, breaking after the chunk that reaches the end.  `step =
chunk_size - chunk_overlap`; a non-positive step (overlap ≥ size, where
Python's `range` is empty or raises) yields no chunks. -/
def simpleChunksAux (cs step : ℕ) (text : List Char) :
    ℕ → ℕ → List (List Char × ℕ × ℕ)
  | 0, _ => []
  | fuel + 1, i =>
      if i < text.length ∧ 0 < step then
        if min (i + cs) text.length < text.length then
          ((text.drop i).take (min (i + cs) text.length - i), i,
              min (i + cs) text.length)
            :: simpleChunksAux cs step text fuel (i + step)
        else
          [((text.drop i).take (min (i + cs) text.length - i), i,
              min (i + cs) text.length)]
      else []

/-- Embedding of `_create_simple_chunks`.  The fuel `text.length + 1`
bounds the loop: each admitted step advances `i` by `step ≥ 1`. -/
def createSimpleChunks (cs co : ℕ) (text : List Char) :
    List (List Char × ℕ × ℕ) :=
  simpleChunksAux cs (cs - co) text (text.length + 1) 0

/-- `DocumentChunk` with its two metadata entries. -/
structure DocumentChunk where
  text : List Char
  index : ℕ
  start_char : ℕ
  end_char : ℕ
  char_length : ℕ
  token_estimate : ℕ
deriving DecidableEq

/-- The segment-producing half of `_create_chunks`: semantic chunking when
the text has semantic structure, else simple chunking. -/
def chunkSegments (cs co : ℕ) (text : List Char) :
    List (List Char × ℕ × ℕ) :=
  if hasSemanticStructure text then createSemanticChunks cs co text
  else createSimpleChunks cs co text

/-- Embedding of `DocumentChunker._create_chunks`. -/
def createChunks (cs co : ℕ) (text : List Char) : List DocumentChunk :=
  if text = [] then []
  else
    (chunkSegments cs co text).enum.map
      (fun p => ⟨p.2.1, p.1, p.2.2.1, p.2.2.2, p.2.1.length,
                 p.2.1.length / 4⟩)

/-- Claim C1's coverage property: the chunks' `[start_char, end_char)`
ranges cover `[0, n)`. -/
abbrev chunkRangesCover (chunks : List DocumentChunk) (n : ℕ) : Prop :=
  ∀ p, p < n → ∃ c ∈ chunks, c.start_char ≤ p ∧ p < c.end_char

/-! ## C9 — `Neo4jDatabase.clear_database`
(`src/graphqna/db/neo4j.py`, lines 330–362).

The primitive database operations (the two counts, the `DETACH DELETE`,
the re-count) are external calls whose outcomes enter as `Except`
parameters; `.error` = the Python call raised. -/

/-- Exceptions: the repo's `QueryError` versus anything else. -/
inductive PyErr
  | queryError (msg : List Char)
  | otherError (msg : List Char)
deriving DecidableEq

/-- The warning text `f"⚠️ Database clear incomplete. {remaining} nodes remaining."`. -/
def clearIncompleteMsg (remaining : ℕ) : List Char :=
  "⚠️ Database clear incomplete. ".toList
    ++ (Nat.repr remaining).toList ++ " nodes remaining.".toList

/-- The `except` clause of `clear_database`: a `QueryError` is re-raised
as is; any other exception is wrapped as
`QueryError(f"Error clearing database: {e}")`. -/
def wrapClearError : Except PyErr Unit → Except PyErr Unit
  | .ok _ => .ok ()
  | .error (.queryError m) => .error (.queryError m)
  | .error (.otherError m) =>
      .error (.queryError ("Error clearing database: ".toList ++ m))

/-- Embedding of `clear_database`: count nodes and relationships, delete
everything, re-count; succeed only when the remaining count is zero, else
raise `QueryError` with the remaining count in the message; route every
failure through the `except` clause. -/
def clearDatabase (countNodesBefore countRelsBefore : Except PyErr ℕ)
    (deleteAll : Except PyErr Unit) (countNodesAfter : Except PyErr ℕ) :
    Except PyErr Unit :=
  wrapClearError
    (match countNodesBefore with
     | .error e => .error e
     | .ok _ =>
        match countRelsBefore with
        | .error e => .error e
        | .ok _ =>
            match deleteAll with
            | .error e => .error e
            | .ok _ =>
                match countNodesAfter with
                | .error e => .error e
                | .ok remaining =>
                    if remaining = 0 then .ok ()
                    else .error (.queryError (clearIncompleteMsg remaining)))

end GraphQnA

namespace GraphQnA

/-! ## General helper lemmas -/

/-- `isPrefixOf` agrees with equality of the initial segment. -/
theorem isPrefixOf_iff_take (p l : List Char) :
    p.isPrefixOf l = true ↔ l.take p.length = p := by
  induction p generalizing l with
  | nil => simp [List.isPrefixOf]
  | cons a as ih =>
    cases l with
    | nil => simp [List.isPrefixOf]
    | cons b bs =>
      simp only [List.isPrefixOf, Bool.and_eq_true, beq_iff_eq, ih,
        List.length_cons, List.take_succ_cons, List.cons.injEq]
      constructor
      · rintro ⟨h1, h2⟩; exact ⟨h1.symm, h2⟩
      · rintro ⟨h1, h2⟩; exact ⟨h1.symm, h2⟩

/-- A list is a prefix of itself followed by anything. -/
theorem isPrefixOf_append_self (p b : List Char) :
    p.isPrefixOf (p ++ b) = true := by
  rw [isPrefixOf_iff_take]
  exact List.take_left p b

/-- A leading occurrence makes `containsSub` true. -/
theorem containsSub_of_isPrefixOf (p l : List Char)
    (h : p.isPrefixOf l = true) : containsSub p l = true := by
  cases l with
  | nil =>
      cases p with
      | nil => rfl
      | cons c cs => simp [List.isPrefixOf] at h
  | cons c rest => simp [containsSub, h]

/-- Python's `pat in a + pat + b` is true. -/
theorem containsSub_append (p a b : List Char) :
    containsSub p (a ++ p ++ b) = true := by
  induction a with
  | nil =>
      have : ([] : List Char) ++ p ++ b = p ++ b := by simp
      rw [this]
      exact containsSub_of_isPrefixOf p (p ++ b) (isPrefixOf_append_self p b)
  | cons x xs ih =>
      have : (x :: xs) ++ p ++ b = x :: (xs ++ p ++ b) := by simp
      rw [this]
      simp only [containsSub, Bool.or_eq_true]
      right
      simpa using ih

/-- C2: for every raw embedding of length `k` and configured dimensionality `d`,
`embed_query`'s normalization returns a vector of length exactly `d`: the first
`d` elements when `k > d`, the input right-padded with zeros when `k < d`, and
the input unchanged when `k = d`. -/
theorem embed_query_normalizes_dimensions (d : ℕ) (emb : List ℚ) :
    (normalizeEmbedding d emb).length = d
    ∧ (emb.length > d → normalizeEmbedding d emb = emb.take d)
    ∧ (emb.length < d →
        normalizeEmbedding d emb = emb ++ List.replicate (d - emb.length) 0)
    ∧ (emb.length = d → normalizeEmbedding d emb = emb) := by
  refine ⟨?_, fun h => ?_, fun h => ?_, fun h => ?_⟩
  · unfold normalizeEmbedding
    split
    next h => simp only [List.length_take]; omega
    next h =>
      split
      next h2 => simp only [List.length_append, List.length_replicate]; omega
      next h2 => omega
  · unfold normalizeEmbedding; rw [if_pos h]
  · unfold normalizeEmbedding; rw [if_neg (by omega), if_pos h]
  · unfold normalizeEmbedding; rw [if_neg (by omega), if_neg (by omega)]

/-- Witness for C2 at concrete inputs covering the three cases. -/
theorem embed_query_normalizes_dimensions_witness :
    normalizeEmbedding 2 [(5 : ℚ), 6, 7] = [5, 6]
    ∧ normalizeEmbedding 3 [(5 : ℚ)] = [5, 0, 0]
    ∧ normalizeEmbedding 2 [(5 : ℚ), 6] = [5, 6] := by
  refine ⟨?_, ?_, ?_⟩
  · have h := (embed_query_normalizes_dimensions 2 [(5 : ℚ), 6, 7]).2.1
      (by decide)
    rw [h]; rfl
  · have h := (embed_query_normalizes_dimensions 3 [(5 : ℚ)]).2.2.1
      (by decide)
    rw [h]; rfl
  · exact (embed_query_normalizes_dimensions 2 [(5 : ℚ), 6]).2.2.2 rfl

/-! ### C7 -/

/-- Helper: the `valid_starts` membership test of the code is the
"case-insensitively begins with" property of the spec. -/
theorem cypher_valid_start_iff (s c : List Char) :
    (s.isPrefixOf (upperStr c) = true) ↔ beginsWithClauseCI s c := by
  rw [isPrefixOf_iff_take]
  unfold beginsWithClauseCI upperStr
  rw [List.map_take]

/-- Helper: the code's `cypher.lower().startswith('return')` is the spec's
"case-insensitively begins with `return`". -/
theorem cypher_return_check_iff (c : List Char) :
    ("return".toList.isPrefixOf (lowerStr c) = true) ↔ beginsWithReturnCI c := by
  rw [isPrefixOf_iff_take]
  unfold beginsWithReturnCI lowerStr
  rw [List.map_take]
  rfl

/-- C7 counterexample: on input `"r MATCH n"` the code strips the leading
`r` *and* the whitespace after it (`cypher[1:].strip()`), accepting
`"MATCH n"`, while the claim as stated (strip only the one `r` character,
then require a valid leading clause) leaves `" MATCH n"`, which does not
begin with a valid clause and is rejected to `"UNKNOWN"`. -/
theorem clean_cypher_claim_counterexample :
    cleanAndValidateCypher "r MATCH n".toList = "MATCH n".toList
    ∧ cleanAndValidateCypherClaimed "r MATCH n".toList = "UNKNOWN".toList
    ∧ cleanAndValidateCypher "r MATCH n".toList ≠
        cleanAndValidateCypherClaimed "r MATCH n".toList := by
  decide

/-- C7 (amended): `_clean_and_validate_cypher` returns `UNKNOWN` for empty
input or the literal `UNKNOWN`; from any candidate longer than one character
that starts with `'r'` and does not case-insensitively begin with `return`
it strips that leading `r` **and the surrounding whitespace of the
remainder**; it returns `UNKNOWN` for any statement that does not, after
that stripping, case-insensitively begin with one of MATCH, RETURN, WITH,
CALL, CREATE, MERGE, OPTIONAL — otherwise it returns the statement
unchanged. -/
theorem clean_cypher_amended (cypher : List Char) :
    ((cypher = [] ∨ cypher = "UNKNOWN".toList) →
        cleanAndValidateCypher cypher = "UNKNOWN".toList)
    ∧ (cypher ≠ [] → cypher ≠ "UNKNOWN".toList →
        ∀ c', c' = (if cypher.head? = some 'r' ∧ 1 < cypher.length
              ∧ ¬ beginsWithReturnCI cypher
            then pyStrip (cypher.drop 1) else cypher) →
          cleanAndValidateCypher cypher =
            if ∃ clause ∈ validCypherStarts, beginsWithClauseCI clause c' then
              c'
            else "UNKNOWN".toList) := by
  constructor
  · intro h
    unfold cleanAndValidateCypher
    rw [if_pos h]
  · intro h1 h2 c' hc'
    unfold cleanAndValidateCypher
    rw [if_neg (by rintro (h | h); exacts [h1 h, h2 h])]
    have hstrip : (cypherStripCond cypher = true) ↔
        (cypher.head? = some 'r' ∧ 1 < cypher.length
          ∧ ¬ beginsWithReturnCI cypher) := by
      unfold cypherStripCond
      simp only [Bool.and_eq_true, beq_iff_eq, decide_eq_true_eq,
        Bool.not_eq_true', and_assoc]
      rw [← Bool.not_eq_true, cypher_return_check_iff]
    have harg :
        (if cypherStripCond cypher then pyStrip (cypher.drop 1) else cypher)
          = c' := by
      rw [hc']
      by_cases h : cypherStripCond cypher = true
      · rw [if_pos h, if_pos (hstrip.mp h)]
      · rw [if_neg (by simpa using h), if_neg (fun hh => h (hstrip.mpr hh))]
    rw [harg]
    unfold cypherGate
    have hval : (validCypherStarts.any
        (fun s => s.isPrefixOf (upperStr c')) = true) ↔
        (∃ clause ∈ validCypherStarts, beginsWithClauseCI clause c') := by
      rw [List.any_eq_true]
      constructor
      · rintro ⟨s, hs, hp⟩
        exact ⟨s, hs, (cypher_valid_start_iff s c').mp hp⟩
      · rintro ⟨s, hs, hp⟩
        exact ⟨s, hs, (cypher_valid_start_iff s c').mpr hp⟩
    by_cases h : (∃ clause ∈ validCypherStarts, beginsWithClauseCI clause c')
    · rw [if_pos (hval.mpr h), if_pos h]
    · rw [if_neg (fun hh => h (hval.mp hh)), if_neg h]

/-- Witness for C7 (amended): the stray-`r` input `"rMATCH (n)"` is cleaned
to `"MATCH (n)"`, and the empty input yields `UNKNOWN`. -/
theorem clean_cypher_amended_witness :
    cleanAndValidateCypher "rMATCH (n)".toList = "MATCH (n)".toList
    ∧ cleanAndValidateCypher [] = "UNKNOWN".toList := by
  constructor
  · rw [(clean_cypher_amended "rMATCH (n)".toList).2 (by decide) (by decide)
      "MATCH (n)".toList (by decide)]
    decide
  · exact (clean_cypher_amended []).1 (Or.inl rfl)

/-! ### C3 -/

/-- C3: in `HybridRetriever.answer_question`, when the primary answer
contains the literal `"Not applicable:"` and the fallback answer does not,
the fallback's `QueryResponse` is returned; when both contain the marker,
the primary's response is returned. -/
theorem hybrid_answer_prefers_fallback (query : List Char)
    (p f : QueryResponse) (elapsed : ℚ)
    (hp : containsSub notApplicableMarker p.answer = true) :
    (containsSub notApplicableMarker f.answer = false →
        hybridAnswerQuestion query (.ok p) (.ok f) elapsed = .ok f)
    ∧ (containsSub notApplicableMarker f.answer = true →
        hybridAnswerQuestion query (.ok p) (.ok f) elapsed = .ok p) := by
  constructor
  · intro hf
    simp [hybridAnswerQuestion, hp, hf]
  · intro hf
    simp [hybridAnswerQuestion, hp, hf]

/-- Witness for C3: a concrete primary response bearing the marker against
a marker-free fallback (fallback wins) and a marker-bearing fallback
(primary wins). -/
theorem hybrid_answer_prefers_fallback_witness :
    hybridAnswerQuestion "q".toList
        (.ok ⟨"q".toList, "Not applicable: no data".toList,
              "graphrag".toList, 0, [], []⟩)
        (.ok ⟨"q".toList, "The answer is 42.".toList,
              "vector".toList, 0, [], []⟩) 0
      = .ok ⟨"q".toList, "The answer is 42.".toList,
              "vector".toList, 0, [], []⟩
    ∧ hybridAnswerQuestion "q".toList
        (.ok ⟨"q".toList, "Not applicable: no data".toList,
              "graphrag".toList, 0, [], []⟩)
        (.ok ⟨"q".toList, "Not applicable: nothing".toList,
              "vector".toList, 0, [], []⟩) 0
      = .ok ⟨"q".toList, "Not applicable: no data".toList,
              "graphrag".toList, 0, [], []⟩ := by
  constructor
  · exact (hybrid_answer_prefers_fallback "q".toList _ _ 0 (by decide)).1
      (by decide)
  · exact (hybrid_answer_prefers_fallback "q".toList _ _ 0 (by decide)).2
      (by decide)

/-! ### C4 -/

/-- Helper: the fallback half of `retrieve` invokes the configured fallback
retriever exactly once, on every path. -/
theorem hybridRetrieveFallback_count (fm : RetrieverKey)
    (fb vr : Except (List Char) (List (List Bool))) :
    (hybridRetrieveFallback fm fb vr).2 = 1 := by
  unfold hybridRetrieveFallback
  cases fb with
  | ok rs => rfl
  | error e =>
      dsimp only
      split <;> rfl

/-- C4: `HybridRetriever.retrieve` invokes the configured fallback exactly
once when the primary method is vector/graphrag with fewer than 3 results,
or kg/enhanced_kg with an empty or all-falsy result list; when the primary
meets its threshold the fallback is not invoked and the primary's results
are returned. -/
theorem hybrid_retrieve_fallback_policy (pm fm : RetrieverKey)
    (rs : List (List Bool))
    (fb vr : Except (List Char) (List (List Bool))) :
    ((pm = .vector ∨ pm = .graphrag) → rs.length < 3 →
        (hybridRetrieve pm fm (.ok rs) fb vr).2 = 1)
    ∧ ((pm = .kg ∨ pm = .enhanced_kg) →
        (rs = [] ∨ ∀ r ∈ rs, ∀ v ∈ r, v = false) →
        (hybridRetrieve pm fm (.ok rs) fb vr).2 = 1)
    ∧ ((pm = .vector ∨ pm = .graphrag) → 3 ≤ rs.length →
        hybridRetrieve pm fm (.ok rs) fb vr = (.ok rs, 0))
    ∧ ((pm = .kg ∨ pm = .enhanced_kg) → (∃ r ∈ rs, ∃ v ∈ r, v = true) →
        hybridRetrieve pm fm (.ok rs) fb vr = (.ok rs, 0)) := by
  have hred : hybridRetrieve pm fm (.ok rs) fb vr
      = if hasGoodResults rs pm then (.ok rs, 0)
        else hybridRetrieveFallback fm fb vr := rfl
  refine ⟨fun hpm hlen => ?_, fun hpm hbad => ?_,
          fun hpm hlen => ?_, fun hpm hgood => ?_⟩
  · have hbadres : hasGoodResults rs pm = false := by
      unfold hasGoodResults
      rcases hpm with h | h <;> subst h <;>
        · by_cases hrs : rs = []
          · rw [if_pos hrs]
          · rw [if_neg hrs, if_neg (by decide)]
            simp only [decide_eq_false_iff_not]
            omega
    rw [hred, hbadres]
    simpa using hybridRetrieveFallback_count fm fb vr
  · have hbadres : hasGoodResults rs pm = false := by
      unfold hasGoodResults
      rcases hbad with hempty | hall
      · rw [if_pos hempty]
      · by_cases hrs : rs = []
        · rw [if_pos hrs]
        · rw [if_neg hrs, if_pos hpm, List.any_eq_false]
          intro r hr
          rw [Bool.not_eq_true, List.any_eq_false]
          intro v hv
          simp [hall r hr v hv]
    rw [hred, hbadres]
    simpa using hybridRetrieveFallback_count fm fb vr
  · have hgoodres : hasGoodResults rs pm = true := by
      unfold hasGoodResults
      rw [if_neg (by rintro rfl; simp at hlen)]
      rcases hpm with h | h <;> subst h <;>
        · rw [if_neg (by decide)]
          simpa using hlen
    rw [hred, hgoodres]
    rfl
  · have hgoodres : hasGoodResults rs pm = true := by
      obtain ⟨r, hr, v, hv, hvt⟩ := hgood
      unfold hasGoodResults
      rw [if_neg (by rintro rfl; cases hr)]
      rw [if_pos hpm, List.any_eq_true]
      exact ⟨r, hr, by
        rw [List.any_eq_true]
        exact ⟨v, hv, by simpa using hvt⟩⟩
    rw [hred, hgoodres]
    rfl

/-- Witness for C4 at concrete inputs: a 2-result vector primary falls
back once; an all-falsy kg primary falls back once; a 3-result graphrag
primary and a kg primary with one truthy value are kept with no fallback
call. -/
theorem hybrid_retrieve_fallback_policy_witness :
    (hybridRetrieve .vector .graphrag (.ok [[true], [true]])
        (.ok [[true]]) (.ok [])).2 = 1
    ∧ (hybridRetrieve .kg .vector (.ok [[false, false], []])
        (.ok [[true]]) (.ok [])).2 = 1
    ∧ hybridRetrieve .graphrag .vector (.ok [[true], [true], [false]])
        (.ok [[true]]) (.ok [])
      = (.ok [[true], [true], [false]], 0)
    ∧ hybridRetrieve .enhanced_kg .kg (.ok [[false, true]])
        (.ok [[true]]) (.ok [])
      = (.ok [[false, true]], 0) := by
  refine ⟨?_, ?_, ?_, ?_⟩
  · exact (hybrid_retrieve_fallback_policy .vector .graphrag _ _ _).1
      (Or.inl rfl) (by decide)
  · exact (hybrid_retrieve_fallback_policy .kg .vector _ _ _).2.1
      (Or.inl rfl) (Or.inr (by decide))
  · exact (hybrid_retrieve_fallback_policy .graphrag .vector _ _ _).2.2.1
      (Or.inr rfl) (by decide)
  · exact (hybrid_retrieve_fallback_policy .enhanced_kg .kg _ _ _).2.2.2
      (Or.inr rfl) ⟨[false, true], by decide, true, by decide, rfl⟩

/-! ### C5 -/

/-- C5 (code bug evidence): `RetrievalService.answer_question` *does*
propagate an exception.  With the invalid method string `"bogus"`,
`get_retriever` raises, the `except` block builds
`QueryResponse(retrieval_method="bogus", ...)`, and that constructor's own
`validate_retrieval_method` raises — so the call raises instead of
returning an error response.  The same happens for every enum-typed
`method` argument whose retriever raises, because `str(method)` is
`"RetrievalMethod.VECTOR"`, which the validator also rejects. -/
theorem service_answer_question_propagates (st : ServiceState)
    (ra : ℕ → Except (List Char) QueryResponse) (elapsed : ℚ) :
    serviceAnswerQuestion st "q".toList (.str "bogus".toList) ra elapsed
      = .error ("Invalid retrieval method: bogus".toList
          ++ pydanticMethodSuffix)
    ∧ serviceAnswerQuestion st "q".toList (.enum .vector)
        (fun _ => .error "boom".toList) elapsed
      = .error ("Invalid retrieval method: RetrievalMethod.VECTOR".toList
          ++ pydanticMethodSuffix) := by
  constructor
  · rfl
  · rfl

/-! ### C6 -/

/-- Helper: `get_retriever`'s per-method dispatch is idempotent — a second
call in the state left by the first returns the identical cached
instance and leaves the state unchanged. -/
theorem getRetrieverByMethod_idem (st : ServiceState) (m : RetrievalMethod)
    (r : ℕ) (st' : ServiceState)
    (h : getRetrieverByMethod st m = (r, st')) :
    getRetrieverByMethod st' m = (r, st') := by
  cases m with
  | vector =>
      cases hs : st._vector_retriever with
      | some r0 =>
          simp only [getRetrieverByMethod, hs] at h
          injection h with h1 h2
          subst h1; subst h2
          simp only [getRetrieverByMethod, hs]
      | none =>
          simp only [getRetrieverByMethod, hs] at h
          injection h with h1 h2
          subst h1; subst h2
          simp only [getRetrieverByMethod]
  | graphrag =>
      cases hs : st._graph_retriever with
      | some r0 =>
          simp only [getRetrieverByMethod, hs] at h
          injection h with h1 h2
          subst h1; subst h2
          simp only [getRetrieverByMethod, hs]
      | none =>
          simp only [getRetrieverByMethod, hs] at h
          injection h with h1 h2
          subst h1; subst h2
          simp only [getRetrieverByMethod]
  | kg =>
      cases hs : st._kg_retriever with
      | some r0 =>
          simp only [getRetrieverByMethod, hs] at h
          injection h with h1 h2
          subst h1; subst h2
          simp only [getRetrieverByMethod, hs]
      | none =>
          simp only [getRetrieverByMethod, hs] at h
          injection h with h1 h2
          subst h1; subst h2
          simp only [getRetrieverByMethod]
  | enhanced_kg =>
      cases hs : st._enhanced_kg_retriever with
      | some r0 =>
          simp only [getRetrieverByMethod, hs] at h
          injection h with h1 h2
          subst h1; subst h2
          simp only [getRetrieverByMethod, hs]
      | none =>
          simp only [getRetrieverByMethod, hs] at h
          injection h with h1 h2
          subst h1; subst h2
          simp only [getRetrieverByMethod]
  | hybrid =>
      cases hs : st._hybrid_retriever with
      | some r0 =>
          simp only [getRetrieverByMethod, hs] at h
          injection h with h1 h2
          subst h1; subst h2
          simp only [getRetrieverByMethod, hs]
      | none =>
          simp only [getRetrieverByMethod, hs] at h
          injection h with h1 h2
          subst h1; subst h2
          simp only [getRetrieverByMethod]

/-- C6: `get_retriever` treats method names case-insensitively (`"Vector"`,
`"VECTOR"`, `"vector"` all resolve to the vector retriever), returns the
identical cached instance on a repeated call with the same method, and
raises a `ValueError` naming the offending value for an unknown method
name. -/
theorem get_retriever_contract (st : ServiceState) :
    (getRetriever st (.str "Vector".toList)
        = .ok (getRetrieverByMethod st .vector)
      ∧ getRetriever st (.str "VECTOR".toList)
        = .ok (getRetrieverByMethod st .vector)
      ∧ getRetriever st (.str "vector".toList)
        = .ok (getRetrieverByMethod st .vector))
    ∧ (∀ (method : MethodArg) (m : RetrievalMethod) (r : ℕ)
          (st' : ServiceState),
        normalizeMethod method = .ok m →
        getRetriever st method = .ok (r, st') →
        getRetriever st' method = .ok (r, st'))
    ∧ (∀ s : List Char, retrievalMethodOfValue (lowerStr s) = none →
        getRetriever st (.str s)
            = .error ("Invalid retrieval method: ".toList ++ s)
          ∧ containsSub s ("Invalid retrieval method: ".toList ++ s)
            = true) := by
  refine ⟨⟨rfl, rfl, rfl⟩, ?_, ?_⟩
  · intro method m r st' hn hg
    unfold getRetriever at hg ⊢
    rw [hn] at hg ⊢
    injection hg with hg
    exact congrArg Except.ok (getRetrieverByMethod_idem st m r st' hg)
  · intro s hs
    constructor
    · simp only [getRetriever, normalizeMethod, hs]
    · have : ("Invalid retrieval method: ".toList ++ s)
          = "Invalid retrieval method: ".toList ++ s ++ [] := by simp
      rw [this]
      exact containsSub_append s "Invalid retrieval method: ".toList []

/-- Witness for C6: from the empty service state, `"VECTOR"` resolves like
`"vector"`, a repeated `"vector"` call returns the same instance id `0`,
and `"bogus"` is rejected with a message naming it. -/
theorem get_retriever_contract_witness :
    getRetriever ⟨none, none, none, none, none, 0⟩ (.str "VECTOR".toList)
      = .ok (0, ⟨some 0, none, none, none, none, 1⟩)
    ∧ getRetriever ⟨some 0, none, none, none, none, 1⟩
        (.str "vector".toList)
      = .ok (0, ⟨some 0, none, none, none, none, 1⟩)
    ∧ getRetriever ⟨none, none, none, none, none, 0⟩ (.str "bogus".toList)
      = .error "Invalid retrieval method: bogus".toList := by
  refine ⟨?_, ?_, ?_⟩
  · exact (get_retriever_contract ⟨none, none, none, none, none, 0⟩).1.2.1
  · exact (get_retriever_contract ⟨none, none, none, none, none, 0⟩).2.1
      (.str "vector".toList) .vector 0 ⟨some 0, none, none, none, none, 1⟩
      rfl rfl
  · exact ((get_retriever_contract ⟨none, none, none, none, none, 0⟩).2.2
      "bogus".toList rfl).1

/-! ### C9 -/

/-- Helper: every error leaving the `except` clause of `clear_database` is
a `QueryError`. -/
theorem wrapClearError_error (b : Except PyErr Unit) (e : PyErr)
    (h : wrapClearError b = .error e) : ∃ m, e = .queryError m := by
  cases b with
  | ok u => simp [wrapClearError] at h
  | error e' =>
      cases e' with
      | queryError m =>
          simp only [wrapClearError] at h
          injection h with h1
          exact ⟨m, h1.symm⟩
      | otherError m =>
          simp only [wrapClearError] at h
          injection h with h1
          exact ⟨"Error clearing database: ".toList ++ m, h1.symm⟩

/-- C9: `clear_database` returns normally only when the re-count after the
delete is zero; otherwise it raises a `QueryError` whose message contains
the remaining node count; and any failure of the underlying operations is
re-raised as a `QueryError`. -/
theorem clear_database_verifies (n1 nr rem : ℕ) :
    (clearDatabase (.ok n1) (.ok nr) (.ok ()) (.ok rem) = .ok () ↔ rem = 0)
    ∧ (rem ≠ 0 →
        clearDatabase (.ok n1) (.ok nr) (.ok ()) (.ok rem)
          = .error (.queryError (clearIncompleteMsg rem))
        ∧ containsSub (Nat.repr rem).toList (clearIncompleteMsg rem) = true)
    ∧ (∀ (c1 cr : Except PyErr ℕ) (del : Except PyErr Unit)
          (c2 : Except PyErr ℕ) (e : PyErr),
        clearDatabase c1 cr del c2 = .error e → ∃ m, e = .queryError m) := by
  have hfail : rem ≠ 0 →
      clearDatabase (.ok n1) (.ok nr) (.ok ()) (.ok rem)
        = .error (.queryError (clearIncompleteMsg rem)) := by
    intro hrem
    simp only [clearDatabase]
    rw [if_neg hrem]
    rfl
  refine ⟨?_, fun hrem => ⟨hfail hrem, ?_⟩, ?_⟩
  · by_cases hrem : rem = 0
    · subst hrem
      simp [clearDatabase, wrapClearError]
    · rw [hfail hrem]
      simp [hrem]
  · exact containsSub_append (Nat.repr rem).toList
      "⚠️ Database clear incomplete. ".toList " nodes remaining.".toList
  · intro c1 cr del c2 e h
    unfold clearDatabase at h
    exact wrapClearError_error _ e h

/-- Witness for C9: with 2 nodes remaining the call fails with a
`QueryError` naming the count; with 0 remaining it succeeds; a non-query
failure of the first count is re-raised as a `QueryError`. -/
theorem clear_database_verifies_witness :
    clearDatabase (.ok 5) (.ok 3) (.ok ()) (.ok 2)
      = .error (.queryError (clearIncompleteMsg 2))
    ∧ containsSub (Nat.repr 2).toList (clearIncompleteMsg 2) = true
    ∧ clearDatabase (.ok 1) (.ok 1) (.ok ()) (.ok 0) = .ok ()
    ∧ ∃ m, PyErr.queryError ("Error clearing database: boom".toList)
        = .queryError m := by
  refine ⟨((clear_database_verifies 5 3 2).2.1 (by decide)).1,
          ((clear_database_verifies 5 3 2).2.1 (by decide)).2,
          ((clear_database_verifies 1 1 0).1).mpr rfl,
          (clear_database_verifies 0 0 0).2.2
            (.error (.otherError "boom".toList)) (.ok 0) (.ok ()) (.ok 0)
            _ rfl⟩

/-! ### C10 -/

/-- C10: after any `is_rate_limited(ip)` call the stored list for `ip`
holds only timestamps newer than `now - 60`; a rejecting call stores
exactly the cleaned-up old entries (it does not record the rejected
request); and once every stored entry has aged past one minute the next
call is admitted. -/
theorem rate_limiter_invariant (st : RLState) (ip : List Char) (now : ℚ) :
    (∀ ts ∈ (isRateLimited 60 st ip now).2 ip, now - 60 < ts)
    ∧ ((isRateLimited 60 st ip now).1 = true →
        (isRateLimited 60 st ip now).2 ip
          = (st ip).filter (fun ts => now - 60 < ts))
    ∧ ((∀ ts ∈ st ip, ts ≤ now - 60) →
        (isRateLimited 60 st ip now).1 = false) := by
  unfold isRateLimited
  by_cases hc : 60 ≤ ((st ip).filter (fun ts => now - 60 < ts)).length
  · rw [if_pos hc]
    refine ⟨?_, fun _ => ?_, fun hall => ?_⟩
    · intro ts hts
      simp only [updateRL, if_pos rfl] at hts
      have := List.of_mem_filter hts
      simpa using this
    · simp [updateRL]
    · exfalso
      have hnil : (st ip).filter (fun ts => now - 60 < ts) = [] := by
        rw [List.filter_eq_nil_iff]
        intro a ha
        simpa using not_lt.mpr (hall a ha)
      rw [hnil] at hc
      simp at hc
  · rw [if_neg hc]
    refine ⟨?_, fun h => ?_, fun _ => rfl⟩
    · intro ts hts
      simp only [updateRL, if_pos rfl] at hts
      rcases List.mem_append.mp hts with hmem | hmem
      · have := List.of_mem_filter hmem
        simpa using this
      · have : ts = now := by simpa using hmem
        subst this
        linarith
    · simp at h

/-- Witness for C10 at a concrete saturated state: a rejecting call keeps
exactly the still-recent entries, and a state whose entries have all aged
out admits the next call. -/
theorem rate_limiter_invariant_witness :
    ((isRateLimited 60 (fun _ => List.replicate 60 (50 : ℚ))
        "ip".toList 100).1 = true →
      (isRateLimited 60 (fun _ => List.replicate 60 (50 : ℚ))
        "ip".toList 100).2 "ip".toList
        = (List.replicate 60 (50 : ℚ)).filter (fun ts => (100 : ℚ) - 60 < ts))
    ∧ ((∀ ts ∈ (List.replicate 60 (50 : ℚ)), ts ≤ (200 : ℚ) - 60) →
        (isRateLimited 60 (fun _ => List.replicate 60 (50 : ℚ))
          "ip".toList 200).1 = false) := by
  exact ⟨(rate_limiter_invariant (fun _ => List.replicate 60 (50 : ℚ))
      "ip".toList 100).2.1,
    (rate_limiter_invariant (fun _ => List.replicate 60 (50 : ℚ))
      "ip".toList 200).2.2⟩

/-! ### C8 -/

/-- Helper: every branch of `verify_api_key` leaves the limiter state of
the initial `is_rate_limited` call. -/
theorem verifyApiKey_snd (st : RLState) (ip : List Char) (now : ℚ)
    (key cfg : List Char) :
    (verifyApiKey st ip now key cfg).2 = (isRateLimited 60 st ip now).2 := by
  simp only [verifyApiKey]
  split
  · rfl
  · split
    · rfl
    · split
      · rfl
      · split <;> rfl

/-- Helper: a rate-limited request is answered 429 before any key check. -/
theorem verifyApiKey_limited (st : RLState) (ip : List Char) (now : ℚ)
    (key cfg : List Char) (h : (isRateLimited 60 st ip now).1 = true) :
    (verifyApiKey st ip now key cfg).1 = .httpError 429 := by
  simp [verifyApiKey, h]

/-- Helper: threading the limiter state through a request sequence. -/
theorem processVerify_snd (cfg ip : List Char)
    (reqs : List (ℚ × List Char)) :
    ∀ st : RLState,
      (processVerify cfg ip reqs st).2
        = runLimiter ip (reqs.map Prod.fst) st := by
  induction reqs with
  | nil => intro st; rfl
  | cons r rest ih =>
      intro st
      obtain ⟨now, key⟩ := r
      simp only [processVerify, List.map]
      rw [ih, verifyApiKey_snd]
      rfl

/-- Helper: outcomes of a concatenated request sequence. -/
theorem processVerify_append (cfg ip : List Char)
    (xs ys : List (ℚ × List Char)) :
    ∀ st : RLState,
      processVerify cfg ip (xs ++ ys) st
        = ((processVerify cfg ip xs st).1
              ++ (processVerify cfg ip ys
                    (processVerify cfg ip xs st).2).1,
           (processVerify cfg ip ys (processVerify cfg ip xs st).2).2) := by
  induction xs with
  | nil => intro st; simp [processVerify]
  | cons x rest ih =>
      intro st
      obtain ⟨now, key⟩ := x
      simp [processVerify, ih, List.cons_append]

/-- Helper: as long as the cap is not reached and all requests fall in one
sliding minute, each admitted request appends its timestamp and nothing is
dropped. -/
theorem runLimiter_accumulates (ip : List Char) (ts : List ℚ) :
    ∀ (st : RLState) (acc : List ℚ),
      st ip = acc →
      (∀ a ∈ acc, ∀ t ∈ ts, t - 60 < a) →
      List.Pairwise (fun a b => b - a < 60) ts →
      acc.length + ts.length ≤ 60 →
      runLimiter ip ts st ip = acc ++ ts := by
  induction ts with
  | nil => intro st acc hst _ _ _; simpa [runLimiter] using hst
  | cons t rest ih =>
      intro st acc hst hwin hp hlen
      have hclean : (st ip).filter (fun a => t - 60 < a) = acc := by
        rw [hst]
        apply List.filter_eq_self.mpr
        intro a ha
        exact decide_eq_true (hwin a ha t (List.mem_cons_self t rest))
      have hnot : ¬ 60 ≤ ((st ip).filter (fun a => t - 60 < a)).length := by
        rw [hclean]
        simp only [List.length_cons] at hlen
        omega
      have hstep : (isRateLimited 60 st ip t).2 ip = acc ++ [t] := by
        simp only [isRateLimited]
        rw [if_neg hnot]
        simp [updateRL, hclean]
      show runLimiter ip rest (isRateLimited 60 st ip t).2 ip
        = acc ++ t :: rest
      have happ : acc ++ t :: rest = (acc ++ [t]) ++ rest := by simp
      rw [happ]
      apply ih _ (acc ++ [t]) hstep
      · intro a ha u hu
        rcases List.mem_append.mp ha with h | h
        · exact hwin a h u (List.mem_cons_of_mem t hu)
        · have hat : a = t := by simpa using h
          subst hat
          have := (List.pairwise_cons.mp hp).1 u hu
          linarith
      · exact (List.pairwise_cons.mp hp).2
      · simp only [List.length_append, List.length_cons,
          List.length_nil] at hlen ⊢
        omega

/-- C8: with an API key configured and the client under the cap, a request
with no (or an empty) `x-api-key` value is rejected 403; the configured key
in any letter case is accepted; and 61 consecutive requests from one IP
within one sliding minute, whatever keys they carry, get a 429 on the 61st
because the rate check runs before the key check. -/
theorem api_security_contract (st : RLState) (ip : List Char) (now : ℚ)
    (cfg : List Char) (hcfg : cfg ≠ [])
    (hunder :
      (((st ip).filter (fun ts => now - 60 < ts)).length) < 60) :
    ((verifyApiKey st ip now [] cfg).1 = .httpError 403)
    ∧ (∀ key : List Char, key ≠ [] → lowerStr key = lowerStr cfg →
        (verifyApiKey st ip now key cfg).1 = .allowed)
    ∧ (∀ (st0 : RLState) (reqs : List (ℚ × List Char)) (t61 : ℚ)
          (k61 : List Char),
        st0 ip = [] → reqs.length = 60 →
        List.Pairwise (fun a b => b.1 - a.1 < 60) (reqs ++ [(t61, k61)]) →
        (processVerify cfg ip (reqs ++ [(t61, k61)]) st0).1.getLast?
          = some (.httpError 429)) := by
  have hnl : (isRateLimited 60 st ip now).1 = false := by
    simp only [isRateLimited]
    rw [if_neg (not_le.mpr hunder)]
  refine ⟨?_, ?_, ?_⟩
  · simp [verifyApiKey, hnl, hcfg]
  · intro key hk hkey
    simp [verifyApiKey, hnl, hcfg, hk, hkey]
  · intro st0 reqs t61 k61 hst0 hlen hp
    rw [processVerify_append]
    have hone : (processVerify cfg ip [(t61, k61)]
        (processVerify cfg ip reqs st0).2).1
        = [(verifyApiKey (processVerify cfg ip reqs st0).2 ip t61 k61
            cfg).1] := rfl
    rw [hone, List.getLast?_concat]
    have hst1ip : (processVerify cfg ip reqs st0).2 ip
        = reqs.map Prod.fst := by
      rw [processVerify_snd]
      have := runLimiter_accumulates ip (reqs.map Prod.fst) st0 [] hst0
        (by simp)
        (by
          rw [List.pairwise_map]
          exact (List.pairwise_append.mp hp).1)
        (by simp [hlen])
      simpa using this
    have hlim : (isRateLimited 60 (processVerify cfg ip reqs st0).2 ip
        t61).1 = true := by
      have hfilter : ((processVerify cfg ip reqs st0).2 ip).filter
          (fun ts => t61 - 60 < ts) = reqs.map Prod.fst := by
        rw [hst1ip]
        apply List.filter_eq_self.mpr
        intro a ha
        obtain ⟨pr, hpr, hfst⟩ := List.mem_map.mp ha
        have hcross := (List.pairwise_append.mp hp).2.2 pr hpr (t61, k61)
          (List.mem_singleton_self _)
        apply decide_eq_true
        rw [← hfst]
        have : t61 - pr.1 < 60 := hcross
        linarith
      simp only [isRateLimited]
      rw [hfilter, if_pos (by simp [hlen])]
    rw [verifyApiKey_limited _ _ _ _ _ hlim]

/-- Witness for C8: a fresh limiter, configured key `"secret"`: the
missing key is 403, `"SECRET"` is accepted, and the 61st of 61 identical
same-instant requests is 429. -/
theorem api_security_contract_witness :
    (verifyApiKey (fun _ => []) "1.2.3.4".toList 0 [] "secret".toList).1
      = .httpError 403
    ∧ (verifyApiKey (fun _ => []) "1.2.3.4".toList 0 "SECRET".toList
        "secret".toList).1 = .allowed
    ∧ (processVerify "secret".toList "1.2.3.4".toList
        (List.replicate 60 ((0 : ℚ), "secret".toList)
          ++ [((0 : ℚ), "secret".toList)])
        (fun _ => [])).1.getLast? = some (.httpError 429) := by
  have h := api_security_contract (fun _ => []) "1.2.3.4".toList 0
    "secret".toList (by decide) (by simp)
  refine ⟨h.1, h.2.1 "SECRET".toList (by decide) (by decide), ?_⟩
  apply h.2.2 (fun _ => []) (List.replicate 60 ((0 : ℚ), "secret".toList))
    0 "secret".toList rfl (by simp)
  have hrep : List.replicate 60 ((0 : ℚ), "secret".toList)
      ++ [((0 : ℚ), "secret".toList)]
      = List.replicate 61 ((0 : ℚ), "secret".toList) :=
    (List.replicate_succ' 60 ((0 : ℚ), "secret".toList)).symm
  rw [hrep]
  apply List.pairwise_replicate.mpr
  norm_num

/-! ### C1 -/

/-- Helper: every position of `[i, len)` is inside some chunk produced by
the simple-chunking loop started at `i`. -/
theorem simpleChunksAux_cover (cs step : ℕ) (text : List Char) :
    ∀ (fuel i p : ℕ), text.length - i < fuel → 0 < step → step ≤ cs →
      i ≤ p → p < text.length →
      ∃ seg ∈ simpleChunksAux cs step text fuel i,
        seg.2.1 ≤ p ∧ p < seg.2.2 := by
  intro fuel
  induction fuel with
  | zero => intro i p hk _ _ _ _; exact absurd hk (Nat.not_lt_zero _)
  | succ fuel ih =>
      intro i p hk h0 hsc hip hpn
      simp only [simpleChunksAux]
      rw [if_pos ⟨lt_of_le_of_lt hip hpn, h0⟩]
      by_cases hlt : min (i + cs) text.length < text.length
      · rw [if_pos hlt]
        by_cases hp : p < min (i + cs) text.length
        · exact ⟨_, List.mem_cons_self _ _, hip, hp⟩
        · push_neg at hp
          obtain ⟨seg, hmem, hs1, hs2⟩ :=
            ih (i + step) p (by omega) h0 hsc (by omega) hpn
          exact ⟨seg, List.mem_cons_of_mem _ hmem, hs1, hs2⟩
      · rw [if_neg hlt]
        refine ⟨_, List.mem_singleton_self _, hip, ?_⟩
        show p < min (i + cs) text.length
        omega

/-- Helper: the first chunk produced from index `i` starts at `i`. -/
theorem simpleChunksAux_head_start (cs step : ℕ) (text : List Char)
    (fuel i : ℕ) (seg : List Char × ℕ × ℕ)
    (h : (simpleChunksAux cs step text fuel i).head? = some seg) :
    seg.2.1 = i := by
  cases fuel with
  | zero => simp [simpleChunksAux] at h
  | succ fuel =>
      simp only [simpleChunksAux] at h
      by_cases hc : i < text.length ∧ 0 < step
      · rw [if_pos hc] at h
        by_cases hlt : min (i + cs) text.length < text.length
        · rw [if_pos hlt] at h
          simp only [List.head?_cons, Option.some.injEq] at h
          rw [← h]
        · rw [if_neg hlt] at h
          simp only [List.head?_cons, Option.some.injEq] at h
          rw [← h]
      · rw [if_neg hc] at h
        simp at h

/-- Helper: consecutive simple chunks overlap by at most
`cs - step` (that is, `chunk_overlap`) characters, and each next chunk
starts inside or at the end of the previous one. -/
theorem simpleChunksAux_chain (cs step : ℕ) (text : List Char) :
    ∀ (fuel i : ℕ), 0 < step → step ≤ cs →
      List.Chain'
        (fun a b => b.2.1 ≤ a.2.2 ∧ a.2.2 - b.2.1 ≤ cs - step)
        (simpleChunksAux cs step text fuel i) := by
  intro fuel
  induction fuel with
  | zero => intro i _ _; simp [simpleChunksAux]
  | succ fuel ih =>
      intro i h0 hsc
      simp only [simpleChunksAux]
      by_cases hc : i < text.length ∧ 0 < step
      · rw [if_pos hc]
        by_cases hlt : min (i + cs) text.length < text.length
        · rw [if_pos hlt]
          rw [List.chain'_cons']
          refine ⟨?_, ih (i + step) h0 hsc⟩
          intro y hy
          have hstart := simpleChunksAux_head_start cs step text fuel
            (i + step) y (Option.mem_def.mp hy)
          dsimp only
          rw [hstart]
          omega
        · rw [if_neg hlt]
          simp
      · rw [if_neg hc]
        simp

/-- Helper: a member of a list appears in its enumeration. -/
theorem mem_enumFrom_of_mem {α : Type} (l : List α) :
    ∀ (x : α) (k : ℕ), x ∈ l → ∃ n, (n, x) ∈ l.enumFrom k := by
  induction l with
  | nil => intro x k hx; cases hx
  | cons a as ih =>
      intro x k hx
      rcases List.mem_cons.mp hx with rfl | hx
      · exact ⟨k, List.mem_cons_self _ _⟩
      · obtain ⟨n, hn⟩ := ih x (k + 1) hx
        exact ⟨n, List.mem_cons_of_mem _ hn⟩

/-- Helper: a chain on the underlying list lifts to its enumeration. -/
theorem chain'_enumFrom
    {R : (List Char × ℕ × ℕ) → (List Char × ℕ × ℕ) → Prop} :
    ∀ (l : List (List Char × ℕ × ℕ)) (k : ℕ), List.Chain' R l →
      List.Chain' (fun a b => R a.2 b.2) (l.enumFrom k) := by
  intro l
  induction l with
  | nil => intro k _; simp
  | cons a as ih =>
      intro k h
      obtain ⟨hhead, htail⟩ := List.chain'_cons'.mp h
      show List.Chain' _ ((k, a) :: as.enumFrom (k + 1))
      rw [List.chain'_cons']
      refine ⟨?_, ih (k + 1) htail⟩
      intro y hy
      cases as with
      | nil => simp at hy
      | cons b bs =>
          have hyb : (k + 1, b) = y := by simpa using hy
          subst hyb
          exact hhead b (by simp)

/-- C1 counterexample: on `"pre\n# H\nx"` (semantic structure: one heading
not at position 0) with `chunk_size = 100 > chunk_overlap = 20`, the
produced chunk ranges are `[(0, 5)]` while the text has length 9 — the
text before the first heading is dropped by `_split_by_headings`, so the
ranges do not cover `[0, len(text))`. -/
theorem chunker_claim_counterexample :
    20 < 100
    ∧ "pre\n# H\nx".toList.length = 9
    ∧ ¬ chunkRangesCover (createChunks 100 20 "pre\n# H\nx".toList) 9 := by
  refine ⟨by decide, by decide, by decide⟩

/-- C1 (amended): `_create_chunks` is a pure function of
`(text, chunk_size, chunk_overlap)` (re-running it is definitionally
identical); and **for text without semantic structure** (no Markdown
heading, at most two blank-line breaks — the simple-chunking path), with
`chunk_overlap < chunk_size`, the produced `[start_char, end_char)` ranges
cover `[0, len(text))` in order and each adjacent pair overlaps by at most
`chunk_overlap` characters. -/
theorem chunker_simple_coverage (cs co : ℕ) (text : List Char)
    (hco : co < cs) (hsem : hasSemanticStructure text = false)
    (hne : text ≠ []) :
    createChunks cs co text = createChunks cs co text
    ∧ chunkRangesCover (createChunks cs co text) text.length
    ∧ List.Chain'
        (fun a b => b.start_char ≤ a.end_char
          ∧ a.end_char - b.start_char ≤ co)
        (createChunks cs co text) := by
  have hsegs : chunkSegments cs co text
      = simpleChunksAux cs (cs - co) text (text.length + 1) 0 := by
    unfold chunkSegments
    rw [hsem]
    rfl
  have hchunks : createChunks cs co text
      = (simpleChunksAux cs (cs - co) text (text.length + 1) 0).enum.map
          (fun p => (⟨p.2.1, p.1, p.2.2.1, p.2.2.2, p.2.1.length,
              p.2.1.length / 4⟩ : DocumentChunk)) := by
    unfold createChunks
    rw [if_neg hne, hsegs]
  refine ⟨rfl, ?_, ?_⟩
  · intro p hp
    obtain ⟨seg, hmem, hs1, hs2⟩ := simpleChunksAux_cover cs (cs - co) text
      (text.length + 1) 0 p (by omega) (by omega) (by omega)
      (Nat.zero_le p) hp
    rw [hchunks]
    obtain ⟨n, hn⟩ := mem_enumFrom_of_mem _ seg 0 hmem
    exact ⟨_, List.mem_map_of_mem _ hn, hs1, hs2⟩
  · rw [hchunks, List.chain'_map]
    have hch := simpleChunksAux_chain cs (cs - co) text (text.length + 1) 0
      (by omega) (by omega)
    have hlift := chain'_enumFrom
      (simpleChunksAux cs (cs - co) text (text.length + 1) 0) 0 hch
    have hcsco : cs - (cs - co) = co := by omega
    rw [hcsco] at hlift
    exact hlift

/-- Witness for C1 (amended) on `"abcdefghijklmnop"` with
`chunk_size = 10`, `chunk_overlap = 3` (chunks `[0,10)` and `[7,16)`). -/
theorem chunker_simple_coverage_witness :
    chunkRangesCover (createChunks 10 3 "abcdefghijklmnop".toList) 16
    ∧ List.Chain'
        (fun a b => b.start_char ≤ a.end_char
          ∧ a.end_char - b.start_char ≤ 3)
        (createChunks 10 3 "abcdefghijklmnop".toList) := by
  have h := chunker_simple_coverage 10 3 "abcdefghijklmnop".toList
    (by decide) (by decide) (by decide)
  exact ⟨h.2.1, h.2.2⟩

end GraphQnA
